/-
Verification of the py-kite-nfo-trader core algorithms against their
natural-language specification.

The Python source is shallowly embedded: prices are rationals, instrument
and quote dictionaries become structures, loops become folds or structural
recursion.  Each embedded definition mirrors one Python function:

  * get_next_month_code        ~ NFOService._get_next_month_code
  * diff_lists                 ~ watch_options_changes.diff_lists
  * atmScan                    ~ the running-minimum loop in
                                 NFOService.filter_atm_otm_options
  * filter_atm_otm_group       ~ the per-underlying body of
                                 NFOService.filter_atm_otm_options
  * get_atm_strike             ~ NFOService.get_atm_strike
  * find_options_up_percentage ~ MarketDataService.find_options_up_percentage
  * get_current_month_contracts ~ NFOService.get_current_month_contracts
  * run_cycle / mainStep       ~ watch_options_changes.run_cycle / main
-/
import Mathlib

namespace KiteTrader

/-! ## Definitions -/

/-! ### Month-code computation (NFOService._get_next_month_code) -/

/-- Model of Python's `datetime(y, m, 1).strftime('%b').upper()`. -/
def monthAbbrev : Nat → String
  | 1 => "JAN"
  | 2 => "FEB"
  | 3 => "MAR"
  | 4 => "APR"
  | 5 => "MAY"
  | 6 => "JUN"
  | 7 => "JUL"
  | 8 => "AUG"
  | 9 => "SEP"
  | 10 => "OCT"
  | 11 => "NOV"
  | 12 => "DEC"
  | _ => ""

/-- Model of Python's `str(n).zfill(2)` for `n < 100`. -/
def zfill2 (n : Nat) : String :=
  if n < 10 then "0" ++ toString n else toString n

/-- Embedding of `NFOService._get_next_month_code`: increment the month,
wrapping December to January of the next year, then build the
two-digit-year + month-abbreviation code.  The day component of the date
is irrelevant, so a date is passed as (year, month). -/
def get_next_month_code (year month : Nat) : String :=
  if month = 12 then
    zfill2 ((year + 1) % 100) ++ monthAbbrev 1
  else
    zfill2 (year % 100) ++ monthAbbrev (month + 1)

/-- Specification-side reformulation of the month increment: the successor
month in a flat months-since-year-zero count, rendered the same way. -/
def next_month_code_spec (year month : Nat) : String :=
  zfill2 (((year * 12 + month) / 12) % 100) ++ monthAbbrev ((year * 12 + month) % 12 + 1)

/-! ### Sorted deduplication (Python `sorted(set(xs))`) -/

/-- Insert into a strictly sorted list, skipping duplicates.  Folding this
over a list reproduces Python's `sorted(set(xs))`. -/
def insertStrict {α : Type} [LinearOrder α] (x : α) : List α → List α
  | [] => [x]
  | y :: ys =>
    if x < y then x :: y :: ys
    else if x = y then y :: ys
    else y :: insertStrict x ys

/-- Model of Python's `sorted(set(xs))`: the strictly increasing
enumeration of the distinct elements of `xs`. -/
def sortedDedup {α : Type} [LinearOrder α] (l : List α) : List α :=
  l.foldr insertStrict []

/-! ### Snapshot diff (watch_options_changes.diff_lists) -/

/-- Embedding of `watch_options_changes.diff_lists`: set-difference both
ways, each returned as Python's `sorted(set(...))`. -/
def diff_lists (prev curr : List String) : List String × List String :=
  (sortedDedup (curr.filter (fun x => decide (¬ x ∈ prev))),
   sortedDedup (prev.filter (fun x => decide (¬ x ∈ curr))))

/-! ### Python string primitives -/

/-- Model of Python's `str.upper()` (ASCII): upper-case every character. -/
def pyUpper (s : String) : String :=
  String.mk (s.data.map Char.toUpper)

/-- Model of Python's `str.strip()`: drop leading and trailing whitespace. -/
def pyStrip (s : String) : String :=
  String.mk (((s.data.dropWhile Char.isWhitespace).reverse.dropWhile
    Char.isWhitespace).reverse)

/-! ### Instruments and quotes -/

/-- An NFO instrument dictionary, restricted to the keys the core
algorithms read (`instrument.get('name')`, `.get('tradingsymbol')`,
`.get('instrument_type')`, `.get('strike', 0)`, `.get('last_price', 0)`).
Missing keys are represented by their Python defaults. -/
structure Instrument where
  name : String
  tradingsymbol : String
  instrument_type : String
  strike : ℚ
  last_price : ℚ
deriving DecidableEq

/-- The part of a Kite quote the momentum scan reads: `last_price` and
`ohlc.open`, with Python's `.get(..., 0)` defaults already applied. -/
structure Quote where
  last_price : ℚ
  ohlc_open : ℚ
deriving DecidableEq

/-! ### ATM strike resolution (NFOService.get_atm_strike) -/

/-- The inner early-return scans of `get_atm_strike`: the first instrument
whose name matches the underlying (case-insensitively) and whose last
price is strictly positive yields that price. -/
def firstPosLtp (underlying : String) : List Instrument → Option ℚ
  | [] => none
  | i :: rest =>
    if pyUpper i.name = pyUpper underlying ∧ 0 < i.last_price then some i.last_price
    else firstPosLtp underlying rest

/-- Stages 2 and 3 of `get_atm_strike`: current-cycle future, then any
current-cycle option, then the final `return 0`. -/
def futures_then_options_ltp (underlying : String)
    (futures opts : List Instrument) : ℚ :=
  match firstPosLtp underlying futures with
  | some v => v
  | none =>
    match firstPosLtp underlying opts with
    | some v => v
    | none => 0

/-- Embedding of `NFOService.get_atm_strike`.  The live NSE spot lookup is
abstracted as `spot : Option ℚ`: `none` models a quote exception or a
missing response key, `some v` models a response whose `last_price` is
`v` (0 when the field is absent). -/
def get_atm_strike (spot : Option ℚ) (underlying : String)
    (futures opts : List Instrument) : ℚ :=
  match spot with
  | some ltp => if 0 < ltp then ltp else futures_then_options_ltp underlying futures opts
  | none => futures_then_options_ltp underlying futures opts

/-- Specification-side candidate sequence for the ATM price: the spot
quote value, then the matching futures' last prices in order, then the
matching options' last prices in order. -/
def atm_candidates (spot : Option ℚ) (underlying : String)
    (futures opts : List Instrument) : List ℚ :=
  spot.toList
    ++ (futures.filter (fun i => decide (pyUpper i.name = pyUpper underlying))).map
        Instrument.last_price
    ++ (opts.filter (fun i => decide (pyUpper i.name = pyUpper underlying))).map
        Instrument.last_price

/-- Specification-side resolver: the first strictly positive candidate, or
0 when none is. -/
def firstPos : List ℚ → ℚ
  | [] => 0
  | x :: xs => if 0 < x then x else firstPos xs

/-! ### Strike-window selection (NFOService.filter_atm_otm_options) -/

/-- One iteration step of the running-minimum loop

```
for i, strike in enumerate(strikes):
    if abs(strike - atm_strike) < abs(strikes[atm_index] - atm_strike) \
            if atm_index >= 0 else True:
        atm_index = i
```

`acc` is `atm_index`, initialised to the sentinel `-1`; `strikes[atm_index]`
is only read when `acc ≥ 0`, so the `getD` default is never consulted. -/
def atmLoop (strikes : List ℚ) (atm : ℚ) : List (Nat × ℚ) → Int → Int
  | [], acc => acc
  | (i, strike) :: rest, acc =>
    let cond : Bool :=
      if 0 ≤ acc then
        decide (|strike - atm| < |strikes.getD acc.toNat 0 - atm|)
      else true
    atmLoop strikes atm rest (if cond then (i : Int) else acc)

/-- The whole running-minimum scan: Python's `enumerate(strikes)` is
`strikes.enum`, and `atm_index` starts at the sentinel -1. -/
def atmScan (strikes : List ℚ) (atm : ℚ) : Int :=
  atmLoop strikes atm strikes.enum (-1)

/-- Distance of the strike at index `j` from the ATM reference price. -/
def strikeDist (strikes : List ℚ) (atm : ℚ) (j : Nat) : ℚ :=
  |strikes.getD j 0 - atm|

/-- Embedding of `strikes[start_index:end_index]` with
`start_index = max(0, atm_index - w)` and
`end_index = min(len(strikes), atm_index + w + 1)`. -/
def selected_strikes (strikes : List ℚ) (atmIdx : Int) (w : Nat) : List ℚ :=
  let s := (max 0 (atmIdx - (w : Int))).toNat
  let e := (min (strikes.length : Int) (atmIdx + (w : Int) + 1)).toNat
  (strikes.drop s).take (e - s)

/-- Result of the per-underlying body of `filter_atm_otm_options`:
`kept` collects what the body appends to `filtered_options`, `skipped`
records whether one of the two fail-open `continue` branches ran (each of
which also increments `skipped_count`). -/
structure GroupResult where
  kept : List Instrument
  skipped : Bool
deriving DecidableEq

/-- Embedding of the per-underlying body of
`NFOService.filter_atm_otm_options`, from `atm_strike = ...` (here passed
in as `atm`) to the final strike-membership filter. -/
def filter_atm_otm_group (atm : ℚ) (w : Nat) (opts : List Instrument) : GroupResult :=
  if atm = 0 then ⟨opts, true⟩
  else
    let strikes := sortedDedup (opts.map Instrument.strike)
    let atmIdx := atmScan strikes atm
    if atmIdx = -1 then ⟨opts, true⟩
    else
      let sel := selected_strikes strikes atmIdx w
      ⟨opts.filter (fun o => decide (o.strike ∈ sel)), false⟩

/-! ### Momentum scan (MarketDataService.find_options_up_percentage) -/

/-- One record of the scan's result list (the dict literal appended to
`options_up_percentage`). -/
structure MomentumRecord where
  option : Instrument
  current_price : ℚ
  open_price : ℚ
  percentage_change : ℚ
  quote_data : Quote
deriving DecidableEq

/-- The quote-dictionary key used for an option: `f"NFO:{symbol}"`. -/
def quoteKey (o : Instrument) : String :=
  "NFO:" ++ o.tradingsymbol

/-- The record-building loop of `find_options_up_percentage`: for each
option with a matching quote whose current and open prices are both
strictly positive and whose percentage change meets the threshold, emit a
record; every other option is skipped. -/
def scanRecords (opts : List Instrument) (quotes : List (String × Quote))
    (threshold : ℚ) : List MomentumRecord :=
  opts.filterMap (fun o =>
    match quotes.lookup (quoteKey o) with
    | none => none
    | some q =>
      if 0 < q.last_price ∧ 0 < q.ohlc_open then
        if (q.last_price - q.ohlc_open) / q.ohlc_open * 100 ≥ threshold then
          some ⟨o, q.last_price, q.ohlc_open,
                (q.last_price - q.ohlc_open) / q.ohlc_open * 100, q⟩
        else none
      else none)

/-- The ordering used by `options_up_percentage.sort(key=..., reverse=True)`:
descending percentage change. -/
def mrecDesc (a b : MomentumRecord) : Prop :=
  b.percentage_change ≤ a.percentage_change

instance : DecidableRel mrecDesc := fun a b =>
  inferInstanceAs (Decidable (b.percentage_change ≤ a.percentage_change))

/-- Embedding of `MarketDataService.find_options_up_percentage` (given the
already-fetched quote map).  Python's `list.sort` is a stable sort, so it
is modelled by insertion sort under the descending-percentage order. -/
def find_options_up_percentage (opts : List Instrument)
    (quotes : List (String × Quote)) (threshold : ℚ) : List MomentumRecord :=
  List.insertionSort mrecDesc (scanRecords opts quotes threshold)

/-! ### Contract-cycle resolution (NFOService.get_current_month_contracts) -/

/-- Embedding of `__init__`'s
`self.current_month = override if override else self._get_current_month()`. -/
def init_current_month (override computed : String) : String :=
  if override = "" then computed else override

/-- Python's `code in tradingsymbol` substring test. -/
def containsCode (code tradingsymbol : String) : Prop :=
  code.data <:+: tradingsymbol.data

instance (code ts : String) : Decidable (containsCode code ts) :=
  List.decidableInfix code.data ts.data

/-- The `instrument_type == 'FUT'` arm of the classification loop,
restricted to contracts of the given cycle code. -/
def futuresFor (code : String) (all : List Instrument) : List Instrument :=
  all.filter (fun i =>
    decide (containsCode code i.tradingsymbol) &&
    decide (pyUpper i.instrument_type = "FUT"))

/-- The `instrument_type in ['CE', 'PE']` arm of the classification loop,
restricted to contracts of the given cycle code. -/
def optionsFor (code : String) (all : List Instrument) : List Instrument :=
  all.filter (fun i =>
    decide (containsCode code i.tradingsymbol) &&
    (decide (pyUpper i.instrument_type = "CE") ||
     decide (pyUpper i.instrument_type = "PE")))

/-- Outcome of `NFOService.get_current_month_contracts`: the possibly
fallback-replaced cycle code and the classified contract lists. -/
structure ContractsResult where
  current_month : String
  futures : List Instrument
  options : List Instrument
deriving DecidableEq

/-- Embedding of `NFOService.get_current_month_contracts`.  `next_month`
stands for `self._get_next_month_code()` evaluated at today's date, and
`fallbackEnabled` for `self.app_config.is_fallback_next_month_enabled()`. -/
def get_current_month_contracts (all : List Instrument)
    (current_month next_month : String) (fallbackEnabled : Bool) : ContractsResult :=
  let futs := futuresFor current_month all
  let opts := optionsFor current_month all
  if futs.length = 0 ∧ fallbackEnabled = true then
    let nfuts := futuresFor next_month all
    let nopts := optionsFor next_month all
    if nfuts.length > 0 then ⟨next_month, nfuts, nopts⟩
    else ⟨current_month, futs, opts⟩
  else ⟨current_month, futs, opts⟩

/-! ### Watcher state machine (watch_options_changes.run_cycle / main) -/

/-- Embedding of `serialize_options_up`: the sorted set of upper-cased
non-empty names (falling back to the tradingsymbol) of the scan's
records. -/
def serialize_options_up (records : List MomentumRecord) : List String :=
  sortedDedup (records.filterMap (fun r =>
    let n0 := pyStrip r.option.name
    let n := if n0 = "" then pyStrip r.option.tradingsymbol else n0
    if n = "" then none else some (pyUpper n)))

/-- The persisted `watcher_status.json` record (the fields the claims are
about). -/
structure StatusRecord where
  added_count : Nat
  removed_count : Nat
deriving DecidableEq

/-- The state the watcher carries across cycles: the persisted snapshot
file `options_up_200_percent_latest.json`, `main`'s in-memory
`prev_snapshot` variable, and the persisted `watcher_status.json`. -/
structure WatcherState where
  filePrev : List String
  memPrev : List String
  status : Option StatusRecord
deriving DecidableEq

/-- What a cycle's externally-determined fate is: authentication failed,
contract fetching (Option 1) failed, or both succeeded and the momentum
scan produced `records`. -/
inductive CycleOutcome where
  | authFail
  | fetchFail
  | scanned (records : List MomentumRecord)
deriving DecidableEq

/-- Embedding of `run_cycle`: on either failure it returns `None` before
touching the snapshot file; on success it serializes the scan result,
saves it to the snapshot file, and returns it.  The pair is
(returned value, snapshot file content after the call). -/
def run_cycle (outcome : CycleOutcome) (file : List String) :
    Option (List String) × List String :=
  match outcome with
  | .authFail => (none, file)
  | .fetchFail => (none, file)
  | .scanned records =>
    let curr := serialize_options_up records
    (some curr, curr)

/-- Embedding of one iteration of `main`'s loop (diff, conditional
baseline update, status write).  When `run_cycle` returns `None` the whole
`if curr_snapshot is not None` block is skipped. -/
def mainStep (s : WatcherState) (outcome : CycleOutcome) : WatcherState :=
  let rc := run_cycle outcome s.filePrev
  match rc.1 with
  | none => { s with filePrev := rc.2 }
  | some curr =>
    let d := diff_lists s.memPrev curr
    { filePrev := rc.2
      memPrev := if d.1 ≠ [] then curr else s.memPrev
      status := some ⟨d.1.length, d.2.length⟩ }

/-! ## Lemmas about sorted deduplication -/

theorem mem_insertStrict {α : Type} [LinearOrder α] (x a : α) (l : List α) :
    a ∈ insertStrict x l ↔ a = x ∨ a ∈ l := by
  induction l with
  | nil => simp [insertStrict]
  | cons y ys ih =>
    by_cases h1 : x < y
    · simp [insertStrict, h1]
    · by_cases h2 : x = y
      · subst h2
        simp only [insertStrict, if_neg h1, if_pos rfl]
        constructor
        · intro h; exact Or.inr h
        · rintro (rfl | h)
          · exact List.mem_cons_self _ _
          · exact h
      · simp only [insertStrict, if_neg h1, if_neg h2, List.mem_cons, ih]
        tauto

theorem sorted_insertStrict {α : Type} [LinearOrder α] (x : α) (l : List α)
    (hl : l.Pairwise (· < ·)) : (insertStrict x l).Pairwise (· < ·) := by
  induction l with
  | nil => simp [insertStrict]
  | cons y ys ih =>
    rcases List.pairwise_cons.mp hl with ⟨hy, hys⟩
    by_cases h1 : x < y
    · simp only [insertStrict, if_pos h1]
      refine List.pairwise_cons.mpr ⟨?_, hl⟩
      intro b hb
      rcases List.mem_cons.mp hb with rfl | hb
      · exact h1
      · exact lt_trans h1 (hy b hb)
    · by_cases h2 : x = y
      · simpa [insertStrict, h1, h2] using hl
      · have hyx : y < x := lt_of_le_of_ne (not_lt.mp h1) (Ne.symm h2)
        simp only [insertStrict, if_neg h1, if_neg h2]
        refine List.pairwise_cons.mpr ⟨?_, ih hys⟩
        intro b hb
        rcases (mem_insertStrict x b ys).mp hb with rfl | hb
        · exact hyx
        · exact hy b hb

theorem insertStrict_ne_nil {α : Type} [LinearOrder α] (x : α) (l : List α) :
    insertStrict x l ≠ [] := by
  cases l with
  | nil => simp [insertStrict]
  | cons y ys =>
    by_cases h1 : x < y
    · simp [insertStrict, h1]
    · by_cases h2 : x = y <;> simp [insertStrict, h1, h2]

theorem mem_sortedDedup {α : Type} [LinearOrder α] (a : α) (l : List α) :
    a ∈ sortedDedup l ↔ a ∈ l := by
  induction l with
  | nil => simp [sortedDedup]
  | cons y ys ih =>
    simp only [sortedDedup, List.foldr_cons] at *
    rw [mem_insertStrict, ih, List.mem_cons]

theorem sorted_sortedDedup {α : Type} [LinearOrder α] (l : List α) :
    (sortedDedup l).Pairwise (· < ·) := by
  induction l with
  | nil => simp [sortedDedup]
  | cons y ys ih => exact sorted_insertStrict y _ ih

theorem sortedDedup_ne_nil {α : Type} [LinearOrder α] (l : List α) (h : l ≠ []) :
    sortedDedup l ≠ [] := by
  cases l with
  | nil => exact absurd rfl h
  | cons y ys => exact insertStrict_ne_nil y _

/-! ## Lemmas about the month code -/

theorem zfill2_length : ∀ n < 100, (zfill2 n).length = 2 := by decide

theorem monthAbbrev_length : ∀ m < 13, 1 ≤ m → (monthAbbrev m).length = 3 := by decide

/-! ## Lemmas about the running-minimum ATM scan -/

theorem atmLoop_step (strikes : List ℚ) (atm : ℚ) (i : Nat) (acc : Int)
    (hil : i < strikes.length) (hacc : 0 ≤ acc) :
    atmLoop strikes atm (List.enumFrom i (strikes.drop i)) acc =
      if strikeDist strikes atm i < strikeDist strikes atm acc.toNat
      then atmLoop strikes atm (List.enumFrom (i + 1) (strikes.drop (i + 1))) (i : Int)
      else atmLoop strikes atm (List.enumFrom (i + 1) (strikes.drop (i + 1))) acc := by
  have hget : strikes[i] = strikes.getD i 0 := (List.getD_eq_getElem strikes 0 hil).symm
  rw [List.drop_eq_getElem_cons hil, List.enumFrom_cons, atmLoop]
  simp only [hget, if_pos hacc, strikeDist]
  split
  · rename_i hdec
    rw [if_pos (of_decide_eq_true hdec)]
  · rename_i hdec
    rw [if_neg (fun hp => hdec (decide_eq_true hp))]

theorem atmLoop_invariant (strikes : List ℚ) (atm : ℚ) :
    ∀ (k i : Nat) (acc : Int), strikes.length - i ≤ k → 0 ≤ acc →
    acc.toNat < strikes.length → acc.toNat < i →
    (∀ j, j < i → strikeDist strikes atm acc.toNat ≤ strikeDist strikes atm j) →
    (∀ j, j < acc.toNat → strikeDist strikes atm acc.toNat < strikeDist strikes atm j) →
    0 ≤ atmLoop strikes atm (List.enumFrom i (strikes.drop i)) acc ∧
    (atmLoop strikes atm (List.enumFrom i (strikes.drop i)) acc).toNat < strikes.length ∧
    (∀ j, j < strikes.length →
      strikeDist strikes atm
        (atmLoop strikes atm (List.enumFrom i (strikes.drop i)) acc).toNat ≤
        strikeDist strikes atm j) ∧
    (∀ j, j < (atmLoop strikes atm (List.enumFrom i (strikes.drop i)) acc).toNat →
      strikeDist strikes atm
        (atmLoop strikes atm (List.enumFrom i (strikes.drop i)) acc).toNat <
        strikeDist strikes atm j) := by
  intro k
  induction k with
  | zero =>
    intro i acc hk hacc hlen hi hmin hfirst
    have hni : strikes.length ≤ i := by omega
    rw [List.drop_eq_nil_of_le hni]
    exact ⟨hacc, hlen, fun j hj => hmin j (by omega), hfirst⟩
  | succ k ih =>
    intro i acc hk hacc hlen hi hmin hfirst
    by_cases hil : i < strikes.length
    · rw [atmLoop_step strikes atm i acc hil hacc]
      by_cases hc : strikeDist strikes atm i < strikeDist strikes atm acc.toNat
      · rw [if_pos hc]
        refine ih (i + 1) (i : Int) (by omega) (by omega) (by simpa using hil)
          (by simp) ?_ ?_
        · intro j hj
          simp only [Int.toNat_natCast]
          rcases Nat.lt_succ_iff_lt_or_eq.mp hj with hj | rfl
          · exact le_of_lt (lt_of_lt_of_le hc (hmin j hj))
          · exact le_refl _
        · intro j hj
          simp only [Int.toNat_natCast] at hj ⊢
          exact lt_of_lt_of_le hc (hmin j hj)
      · rw [if_neg hc]
        refine ih (i + 1) acc (by omega) hacc hlen (by omega) ?_ hfirst
        intro j hj
        rcases Nat.lt_succ_iff_lt_or_eq.mp hj with hj | rfl
        · exact hmin j hj
        · exact not_lt.mp hc
    · rw [List.drop_eq_nil_of_le (by omega)]
      exact ⟨hacc, hlen, fun j hj => hmin j (by omega), hfirst⟩

/-- The scan over a non-empty strike sequence returns a valid index whose
strike is (weakly) nearest the ATM price, and strictly nearer than every
earlier index: the first minimum found wins ties. -/
theorem atmScan_spec (strikes : List ℚ) (atm : ℚ) (h : strikes ≠ []) :
    0 ≤ atmScan strikes atm ∧
    (atmScan strikes atm).toNat < strikes.length ∧
    (∀ j, j < strikes.length →
      strikeDist strikes atm (atmScan strikes atm).toNat ≤ strikeDist strikes atm j) ∧
    (∀ j, j < (atmScan strikes atm).toNat →
      strikeDist strikes atm (atmScan strikes atm).toNat < strikeDist strikes atm j) := by
  have hlen : 0 < strikes.length := List.length_pos.mpr h
  have h0 : atmScan strikes atm =
      atmLoop strikes atm (List.enumFrom 1 (strikes.drop 1)) 0 := by
    rw [atmScan, show strikes.enum = List.enumFrom 0 (strikes.drop 0) by
      rw [List.drop_zero]; rfl]
    rw [List.drop_eq_getElem_cons hlen, List.enumFrom_cons, atmLoop]
    norm_num
  rw [h0]
  refine atmLoop_invariant strikes atm strikes.length 1 0 (by omega) (by omega)
    (by simpa using hlen) (by simp) ?_ (by simp)
  intro j hj
  have hj0 : j = 0 := by omega
  subst hj0
  simp

/-! ## Lemmas about the selected strike window -/

theorem selected_strikes_eq (strikes : List ℚ) (a w : Nat) :
    selected_strikes strikes (a : Int) w =
      (strikes.drop (a - w)).take (min strikes.length (a + w + 1) - (a - w)) := by
  have hs : (max 0 ((a : Int) - (w : Int))).toNat = a - w := by omega
  have he : (min ((strikes.length : Nat) : Int) ((a : Int) + (w : Int) + 1)).toNat
      = min strikes.length (a + w + 1) := by omega
  simp only [selected_strikes]
  rw [hs, he]

theorem selected_strikes_length (strikes : List ℚ) (a w : Nat) (ha : a < strikes.length) :
    (selected_strikes strikes (a : Int) w).length
      = min strikes.length (a + w + 1) - (a - w) := by
  rw [selected_strikes_eq]
  simp only [List.length_take, List.length_drop]
  omega

theorem selected_strikes_getD (strikes : List ℚ) (a w i : Nat) (ha : a < strikes.length)
    (hi : i < min strikes.length (a + w + 1) - (a - w)) :
    (selected_strikes strikes (a : Int) w).getD i 0 = strikes.getD (a - w + i) 0 := by
  rw [selected_strikes_eq]
  have h1 : i < ((strikes.drop (a - w)).take
      (min strikes.length (a + w + 1) - (a - w))).length := by
    simp only [List.length_take, List.length_drop]
    omega
  rw [List.getD_eq_getElem _ 0 h1, List.getD_eq_getElem strikes 0 (by omega)]
  simp [List.getElem_take, List.getElem_drop]

theorem selected_strikes_mem_atm (strikes : List ℚ) (a w : Nat) (ha : a < strikes.length) :
    strikes.getD a 0 ∈ selected_strikes strikes (a : Int) w := by
  have hi : a - (a - w) < min strikes.length (a + w + 1) - (a - w) := by omega
  have hg := selected_strikes_getD strikes a w (a - (a - w)) ha hi
  have ha2 : a - w + (a - (a - w)) = a := by omega
  rw [ha2] at hg
  rw [← hg]
  have hlen := selected_strikes_length strikes a w ha
  rw [List.getD_eq_getElem _ 0 (by rw [hlen]; omega)]
  exact List.getElem_mem _

theorem strikes_ne_nil (opts : List Instrument) (h : opts ≠ []) :
    sortedDedup (opts.map Instrument.strike) ≠ [] :=
  sortedDedup_ne_nil _ (by simpa using h)

theorem filter_atm_otm_group_eq (atm : ℚ) (w : Nat) (opts : List Instrument)
    (hatm : atm ≠ 0)
    (hidx : atmScan (sortedDedup (opts.map Instrument.strike)) atm ≠ -1) :
    filter_atm_otm_group atm w opts =
      ⟨opts.filter (fun o => decide (o.strike ∈
          selected_strikes (sortedDedup (opts.map Instrument.strike))
            (atmScan (sortedDedup (opts.map Instrument.strike)) atm) w)),
        false⟩ := by
  simp only [filter_atm_otm_group, if_neg hatm, if_neg hidx]

/-! ## Claim C3 and C4 theorems -/

/-- C3: for all input name sequences, `diff_lists` returns
`added = current − previous` and `removed = previous − current` as
lexicographically sorted, deduplicated sequences; `diff(S, S) = (∅, ∅)`
for every snapshot `S`; and `diff([A,B], [B,C]) = (added=[C],
removed=[A])`.  (Upper-casing happens upstream, in
`serialize_options_up`/`load_previous`, which produce the snapshots
`diff_lists` is applied to.) -/
theorem claim_C3_snapshot_diff :
    (∀ prev curr a, a ∈ (diff_lists prev curr).1 ↔ a ∈ curr ∧ a ∉ prev) ∧
    (∀ prev curr a, a ∈ (diff_lists prev curr).2 ↔ a ∈ prev ∧ a ∉ curr) ∧
    (∀ prev curr, (diff_lists prev curr).1.Pairwise (· < ·) ∧
      (diff_lists prev curr).2.Pairwise (· < ·)) ∧
    (∀ S : List String, diff_lists S S = ([], [])) ∧
    diff_lists ["A", "B"] ["B", "C"] = (["C"], ["A"]) := by
  refine ⟨?_, ?_, ?_, ?_, ?_⟩
  · intro prev curr a
    simp [diff_lists, mem_sortedDedup, List.mem_filter]
  · intro prev curr a
    simp [diff_lists, mem_sortedDedup, List.mem_filter]
  · intro prev curr
    exact ⟨sorted_sortedDedup _, sorted_sortedDedup _⟩
  · intro S
    have h : S.filter (fun x => decide (¬ x ∈ S)) = [] := by
      simp
    simp only [diff_lists]
    rw [h]
    rfl
  · decide

/-- C4: for every date (year, month with 1 ≤ month ≤ 12), the fallback
month-code computation increments the month, wrapping past December into
January of the next year — i.e. it agrees with the flat successor-month
rendering `next_month_code_spec` — and produces a two-digit year followed
by a three-letter month code; in particular the fallback code for
2025-12-15 is `26JAN`. -/
theorem claim_C4_next_month_code (year month : Nat)
    (h1 : 1 ≤ month) (h2 : month ≤ 12) :
    get_next_month_code year month = next_month_code_spec year month ∧
    (get_next_month_code year month).length = 5 ∧
    get_next_month_code 2025 12 = "26JAN" := by
  refine ⟨?_, ?_, by decide⟩
  · by_cases h : month = 12
    · subst h
      have hd : (year * 12 + 12) / 12 = year + 1 := by omega
      have hm : (year * 12 + 12) % 12 = 0 := by omega
      simp [get_next_month_code, next_month_code_spec, hd, hm]
    · have hlt : month < 12 := lt_of_le_of_ne h2 h
      have hd : (year * 12 + month) / 12 = year := by omega
      have hm : (year * 12 + month) % 12 = month := by omega
      simp [get_next_month_code, next_month_code_spec, h, hd, hm]
  · by_cases h : month = 12
    · subst h
      have hz : (zfill2 ((year + 1) % 100)).length = 2 :=
        zfill2_length _ (Nat.mod_lt _ (by norm_num))
      simp [get_next_month_code, String.length_append, hz, monthAbbrev]
      decide
    · have hz : (zfill2 (year % 100)).length = 2 :=
        zfill2_length _ (Nat.mod_lt _ (by norm_num))
      have hmn : (monthAbbrev (month + 1)).length = 3 :=
        monthAbbrev_length _ (by omega) (by omega)
      simp [get_next_month_code, String.length_append, hz, hmn, h]

/-- C4 witness: the theorem applied at the concrete date 2025-12. -/
theorem claim_C4_next_month_code_witness :
    1 ≤ 12 ∧ 12 ≤ 12 ∧
    (get_next_month_code 2025 12 = next_month_code_spec 2025 12 ∧
     (get_next_month_code 2025 12).length = 5 ∧
     get_next_month_code 2025 12 = "26JAN") :=
  ⟨by decide, by decide, claim_C4_next_month_code 2025 12 (by decide) (by decide)⟩

/-! ## Lemmas about ATM price resolution -/

theorem firstPos_append_filter (u : String) (l : List Instrument) (rest : List ℚ) :
    firstPos (((l.filter (fun i => decide (pyUpper i.name = pyUpper u))).map
        Instrument.last_price) ++ rest) =
      match firstPosLtp u l with
      | some v => v
      | none => firstPos rest := by
  induction l with
  | nil => simp [firstPosLtp]
  | cons i is ih =>
    by_cases hn : pyUpper i.name = pyUpper u
    · by_cases hp : 0 < i.last_price
      · simp [firstPosLtp, hn, hp, firstPos]
      · simp [firstPosLtp, hn, hp, firstPos, ih]
    · simp [firstPosLtp, hn, ih]

theorem firstPos_of_no_pos (l : List ℚ) (h : ∀ c ∈ l, ¬ 0 < c) : firstPos l = 0 := by
  induction l with
  | nil => rfl
  | cons x xs ih =>
    have hx : ¬ 0 < x := h x (List.mem_cons_self _ _)
    simp only [firstPos, if_neg hx]
    exact ih (fun c hc => h c (List.mem_cons_of_mem _ hc))

theorem futures_then_options_eq (u : String) (futures opts : List Instrument) :
    firstPos (((futures.filter (fun i => decide (pyUpper i.name = pyUpper u))).map
          Instrument.last_price) ++
        ((opts.filter (fun i => decide (pyUpper i.name = pyUpper u))).map
          Instrument.last_price)) =
      futures_then_options_ltp u futures opts := by
  have hB : firstPos ((opts.filter (fun i => decide (pyUpper i.name = pyUpper u))).map
      Instrument.last_price) =
      match firstPosLtp u opts with
      | some v => v
      | none => 0 := by
    have h := firstPos_append_filter u opts []
    simpa [firstPos] using h
  rw [firstPos_append_filter u futures]
  unfold futures_then_options_ltp
  cases firstPosLtp u futures with
  | some v => rfl
  | none =>
    rw [hB]

/-! ## Claim C8: ATM resolution order and fail-open -/

/-- C8: `get_atm_strike` tries the live spot quote, then the matching
current-cycle futures, then the matching current-cycle options, returning
the first strictly positive last price — i.e. it equals `firstPos` over
the candidate sequence — and returns 0 when no candidate is positive; and
when the resolver gives 0, `filter_atm_otm_options` includes the whole
group unfiltered and takes the skip path (incrementing the skipped
counter) instead of dropping the underlying. -/
theorem claim_C8_atm_resolution (spot : Option ℚ) (u : String)
    (futures opts grp : List Instrument) (w : Nat) :
    get_atm_strike spot u futures opts = firstPos (atm_candidates spot u futures opts) ∧
    ((∀ c ∈ atm_candidates spot u futures opts, ¬ 0 < c) →
      get_atm_strike spot u futures opts = 0) ∧
    (filter_atm_otm_group 0 w grp).kept = grp ∧
    (filter_atm_otm_group 0 w grp).skipped = true := by
  have hmain : get_atm_strike spot u futures opts
      = firstPos (atm_candidates spot u futures opts) := by
    cases spot with
    | none =>
      simp only [get_atm_strike, atm_candidates, Option.toList, List.nil_append]
      exact (futures_then_options_eq u futures opts).symm
    | some v =>
      simp only [get_atm_strike, atm_candidates, Option.toList, List.cons_append,
        List.nil_append, firstPos]
      by_cases hv : 0 < v
      · rw [if_pos hv, if_pos hv]
      · rw [if_neg hv, if_neg hv]
        exact (futures_then_options_eq u futures opts).symm
  refine ⟨hmain, ?_, ?_, ?_⟩
  · intro hall
    rw [hmain]
    exact firstPos_of_no_pos _ hall
  · simp [filter_atm_otm_group]
  · simp [filter_atm_otm_group]

/-! ## Lemmas about the momentum scan -/

instance : IsTotal MomentumRecord mrecDesc :=
  ⟨fun a b => le_total b.percentage_change a.percentage_change⟩

instance : IsTrans MomentumRecord mrecDesc :=
  ⟨fun _ _ _ hab hbc => le_trans hbc hab⟩

theorem filter_orderedInsert_eq (c : ℚ) (x : MomentumRecord) (l : List MomentumRecord) :
    (List.orderedInsert mrecDesc x l).filter (fun r => decide (r.percentage_change = c)) =
      if x.percentage_change = c
      then x :: l.filter (fun r => decide (r.percentage_change = c))
      else l.filter (fun r => decide (r.percentage_change = c)) := by
  induction l with
  | nil => by_cases hx : x.percentage_change = c <;> simp [List.orderedInsert, hx]
  | cons y ys ih =>
    by_cases hr : mrecDesc x y
    · simp only [List.orderedInsert, if_pos hr]
      by_cases hx : x.percentage_change = c <;> simp [List.filter_cons, hx]
    · simp only [List.orderedInsert, if_neg hr]
      by_cases hy : y.percentage_change = c
      · by_cases hx : x.percentage_change = c
        · exact absurd (le_of_eq (hy.trans hx.symm)) hr
        · simp [List.filter_cons, hy, hx, ih]
      · by_cases hx : x.percentage_change = c <;>
          simp [List.filter_cons, hy, hx, ih]

theorem filter_insertionSort_eq (c : ℚ) (l : List MomentumRecord) :
    (List.insertionSort mrecDesc l).filter (fun r => decide (r.percentage_change = c)) =
      l.filter (fun r => decide (r.percentage_change = c)) := by
  induction l with
  | nil => rfl
  | cons x xs ih =>
    simp only [List.insertionSort]
    rw [filter_orderedInsert_eq]
    by_cases hx : x.percentage_change = c
    · simp [List.filter_cons, hx, ih]
    · simp [List.filter_cons, hx, ih]

theorem mem_scanRecords (opts : List Instrument) (quotes : List (String × Quote))
    (threshold : ℚ) (r : MomentumRecord) :
    r ∈ scanRecords opts quotes threshold ↔
      ∃ o ∈ opts, ∃ q : Quote, quotes.lookup (quoteKey o) = some q ∧
        0 < q.last_price ∧ 0 < q.ohlc_open ∧
        (q.last_price - q.ohlc_open) / q.ohlc_open * 100 ≥ threshold ∧
        r = ⟨o, q.last_price, q.ohlc_open,
             (q.last_price - q.ohlc_open) / q.ohlc_open * 100, q⟩ := by
  unfold scanRecords
  rw [List.mem_filterMap]
  constructor
  · rintro ⟨o, ho, hf⟩
    cases hq : quotes.lookup (quoteKey o) with
    | none => rw [hq] at hf; simp at hf
    | some q =>
      rw [hq] at hf
      dsimp only at hf
      by_cases hpos : 0 < q.last_price ∧ 0 < q.ohlc_open
      · rw [if_pos hpos] at hf
        by_cases hth : (q.last_price - q.ohlc_open) / q.ohlc_open * 100 ≥ threshold
        · rw [if_pos hth] at hf
          exact ⟨o, ho, q, hq, hpos.1, hpos.2, hth, (Option.some_inj.mp hf).symm⟩
        · rw [if_neg hth] at hf; simp at hf
      · rw [if_neg hpos] at hf; simp at hf
  · rintro ⟨o, ho, q, hq, h1, h2, hth, rfl⟩
    refine ⟨o, ho, ?_⟩
    rw [hq]
    dsimp only
    rw [if_pos ⟨h1, h2⟩, if_pos hth]

/-! ## Claim C2: the momentum scan -/

/-- C2: a momentum record exists for an option if and only if it has a
matching quote with strictly positive open and current prices (no
zero-filling: otherwise the option is excluded) whose percent change
`(current − open) / open · 100` is at or above the threshold (inclusive
boundary); the result is sorted in descending order of percent change; and
the sort is stable: for every percent-change value, the records at that
value appear in the same order as in the unsorted scan. -/
theorem claim_C2_momentum_scan (opts : List Instrument)
    (quotes : List (String × Quote)) (threshold : ℚ) :
    (∀ r, r ∈ find_options_up_percentage opts quotes threshold ↔
      ∃ o ∈ opts, ∃ q : Quote, quotes.lookup (quoteKey o) = some q ∧
        0 < q.last_price ∧ 0 < q.ohlc_open ∧
        (q.last_price - q.ohlc_open) / q.ohlc_open * 100 ≥ threshold ∧
        r = ⟨o, q.last_price, q.ohlc_open,
             (q.last_price - q.ohlc_open) / q.ohlc_open * 100, q⟩) ∧
    (find_options_up_percentage opts quotes threshold).Pairwise mrecDesc ∧
    (∀ c : ℚ, (find_options_up_percentage opts quotes threshold).filter
        (fun r => decide (r.percentage_change = c)) =
      (scanRecords opts quotes threshold).filter
        (fun r => decide (r.percentage_change = c))) := by
  refine ⟨?_, ?_, ?_⟩
  · intro r
    rw [find_options_up_percentage,
      (List.perm_insertionSort mrecDesc (scanRecords opts quotes threshold)).mem_iff]
    exact mem_scanRecords opts quotes threshold r
  · exact List.sorted_insertionSort mrecDesc (scanRecords opts quotes threshold)
  · intro c
    exact filter_insertionSort_eq c (scanRecords opts quotes threshold)

/-! ## Claims C1, C9, C10: the strike-window filter -/

/-- C1: for every non-empty options group with a strictly positive ATM
reference price, the filter builds the sorted sequence of distinct strike
values, locates the index of the strike nearest the ATM price, and keeps
exactly the options whose strike lies in the contiguous slice
`strikes[max(0, a - w) : min(len, a + w + 1)]`; the slice stays within
bounds, has length `min(len, 2w+1)` when not truncated at the edges (and
never more), always contains the nearest strike, and retains every option
— CALL and PUT legs alike — whose strike is selected. -/
theorem claim_C1_strike_window (atm : ℚ) (w : Nat) (opts : List Instrument)
    (strikes sel : List ℚ) (a s e : Nat)
    (hne : opts ≠ []) (hatm : 0 < atm)
    (hstr : strikes = sortedDedup (opts.map Instrument.strike))
    (ha : (atmScan strikes atm).toNat = a)
    (hs : s = a - w) (he : e = min strikes.length (a + w + 1))
    (hsel : sel = selected_strikes strikes (atmScan strikes atm) w) :
    (strikes.Pairwise (· < ·) ∧ (∀ v, v ∈ strikes ↔ ∃ o ∈ opts, o.strike = v)) ∧
    (a < strikes.length ∧
      ∀ j, j < strikes.length → strikeDist strikes atm a ≤ strikeDist strikes atm j) ∧
    (s ≤ a ∧ a < e ∧ e ≤ strikes.length ∧ sel.length = e - s ∧
      ∀ i, i < sel.length → sel.getD i 0 = strikes.getD (s + i) 0) ∧
    (sel.length ≤ min strikes.length (2 * w + 1) ∧
      (w ≤ a → a + w + 1 ≤ strikes.length →
        sel.length = min strikes.length (2 * w + 1))) ∧
    strikes.getD a 0 ∈ sel ∧
    (∀ o, o ∈ (filter_atm_otm_group atm w opts).kept ↔ o ∈ opts ∧ o.strike ∈ sel) := by
  have hsne : strikes ≠ [] := hstr ▸ strikes_ne_nil opts hne
  obtain ⟨h0, hlt, hmin, -⟩ := atmScan_spec strikes atm hsne
  have hai : atmScan strikes atm = (a : Int) := by omega
  rw [ha] at hlt hmin
  rw [hai] at hsel
  have hlen := selected_strikes_length strikes a w hlt
  rw [← hsel] at hlen
  constructor
  · constructor
    · exact hstr ▸ sorted_sortedDedup _
    · intro v
      subst hstr
      rw [mem_sortedDedup]
      simp [List.mem_map, eq_comm]
  refine ⟨⟨hlt, hmin⟩, ?_, ?_, ?_, ?_⟩
  · refine ⟨by omega, by omega, by omega, by omega, ?_⟩
    intro i hi
    rw [hlen] at hi
    rw [hsel, hs]
    exact selected_strikes_getD strikes a w i hlt (by omega)
  · constructor
    · omega
    · intro h1 h2
      omega
  · rw [hsel]
    exact selected_strikes_mem_atm strikes a w hlt
  · intro o
    rw [filter_atm_otm_group_eq atm w opts (ne_of_gt hatm)
      (by rw [← hstr]; omega)]
    simp only [List.mem_filter, decide_eq_true_eq]
    rw [← hstr, hai, ← hsel]

/-- C1 witness: the concrete group {(CE,100), (PE,100), (CE,110)} at ATM
price 105 with window size 1. -/
theorem claim_C1_strike_window_witness :
    (([⟨"X", "A", "CE", 100, 0⟩, ⟨"X", "B", "PE", 100, 0⟩,
       ⟨"X", "C", "CE", 110, 0⟩] : List Instrument) ≠ [] ∧
     (0 : ℚ) < 105 ∧
     ([100, 110] : List ℚ) = sortedDedup
       (([⟨"X", "A", "CE", 100, 0⟩, ⟨"X", "B", "PE", 100, 0⟩,
          ⟨"X", "C", "CE", 110, 0⟩] : List Instrument).map Instrument.strike) ∧
     (atmScan [100, 110] 105).toNat = 0 ∧
     0 = 0 - 1 ∧ 2 = min ([100, 110] : List ℚ).length (0 + 1 + 1) ∧
     ([100, 110] : List ℚ) = selected_strikes [100, 110] (atmScan [100, 110] 105) 1) ∧
    ((([100, 110] : List ℚ).Pairwise (· < ·) ∧
      (∀ v, v ∈ ([100, 110] : List ℚ) ↔
        ∃ o ∈ ([⟨"X", "A", "CE", 100, 0⟩, ⟨"X", "B", "PE", 100, 0⟩,
                ⟨"X", "C", "CE", 110, 0⟩] : List Instrument), o.strike = v)) ∧
     (0 < ([100, 110] : List ℚ).length ∧
       ∀ j, j < ([100, 110] : List ℚ).length →
         strikeDist [100, 110] 105 0 ≤ strikeDist [100, 110] 105 j) ∧
     (0 ≤ 0 ∧ 0 < 2 ∧ 2 ≤ ([100, 110] : List ℚ).length ∧
       ([100, 110] : List ℚ).length = 2 - 0 ∧
       ∀ i, i < ([100, 110] : List ℚ).length →
         ([100, 110] : List ℚ).getD i 0 = ([100, 110] : List ℚ).getD (0 + i) 0) ∧
     (([100, 110] : List ℚ).length ≤ min ([100, 110] : List ℚ).length (2 * 1 + 1) ∧
       (1 ≤ 0 → 0 + 1 + 1 ≤ ([100, 110] : List ℚ).length →
         ([100, 110] : List ℚ).length = min ([100, 110] : List ℚ).length (2 * 1 + 1))) ∧
     ([100, 110] : List ℚ).getD 0 0 ∈ ([100, 110] : List ℚ) ∧
     (∀ o, o ∈ (filter_atm_otm_group 105 1
         ([⟨"X", "A", "CE", 100, 0⟩, ⟨"X", "B", "PE", 100, 0⟩,
           ⟨"X", "C", "CE", 110, 0⟩] : List Instrument)).kept ↔
       o ∈ ([⟨"X", "A", "CE", 100, 0⟩, ⟨"X", "B", "PE", 100, 0⟩,
             ⟨"X", "C", "CE", 110, 0⟩] : List Instrument) ∧
       o.strike ∈ ([100, 110] : List ℚ))) := by
  have h1 : ([100, 110] : List ℚ) = sortedDedup
      (([⟨"X", "A", "CE", 100, 0⟩, ⟨"X", "B", "PE", 100, 0⟩,
         ⟨"X", "C", "CE", 110, 0⟩] : List Instrument).map Instrument.strike) := by
    norm_num [sortedDedup, insertStrict]
  have h2 : (atmScan [100, 110] 105).toNat = 0 := by
    norm_num [atmScan, atmLoop, List.enum, List.enumFrom]
  have h3 : ([100, 110] : List ℚ) = selected_strikes [100, 110] (atmScan [100, 110] 105) 1 := by
    norm_num [atmScan, atmLoop, List.enum, List.enumFrom, selected_strikes]
  exact ⟨⟨by simp, by norm_num, h1, h2, by norm_num, by norm_num, h3⟩,
    claim_C1_strike_window 105 1 _ [100, 110] [100, 110] 0 0 2
      (by simp) (by norm_num) h1 h2 (by norm_num) (by norm_num) h3⟩

/-- C9: the nearest-strike search keeps the first minimum found, so on
ties the earliest (lowest-indexed, hence lowest-valued) strike wins: the
result index is weakly nearest overall and strictly nearer than every
earlier index.  For strikes [100, 110] and ATM price 105 the index
resolves to 0, the index of 100. -/
theorem claim_C9_tie_break (strikes : List ℚ) (atm : ℚ) (h : strikes ≠ []) :
    (∀ j, j < strikes.length →
      strikeDist strikes atm (atmScan strikes atm).toNat ≤ strikeDist strikes atm j) ∧
    (∀ j, j < (atmScan strikes atm).toNat →
      strikeDist strikes atm (atmScan strikes atm).toNat < strikeDist strikes atm j) ∧
    atmScan [100, 110] 105 = 0 := by
  obtain ⟨-, -, hmin, hfirst⟩ := atmScan_spec strikes atm h
  refine ⟨hmin, hfirst, ?_⟩
  norm_num [atmScan, atmLoop, List.enum, List.enumFrom]

/-- C9 witness: the theorem applied at strikes [100, 110] and ATM 105. -/
theorem claim_C9_tie_break_witness :
    ([100, 110] : List ℚ) ≠ [] ∧
    ((∀ j, j < ([100, 110] : List ℚ).length →
       strikeDist [100, 110] 105 (atmScan [100, 110] 105).toNat ≤
         strikeDist [100, 110] 105 j) ∧
     (∀ j, j < (atmScan [100, 110] 105).toNat →
       strikeDist [100, 110] 105 (atmScan [100, 110] 105).toNat <
         strikeDist [100, 110] 105 j) ∧
     atmScan [100, 110] 105 = 0) :=
  ⟨by simp, claim_C9_tie_break [100, 110] 105 (by simp)⟩

/-- C10: for a non-empty options group with positive ATM price, the
running-minimum scan accepts the first candidate unconditionally (the
sentinel-initialised conditional), so `atm_index` ends nonnegative and the
secondary fail-open branch guarded by `atm_index == -1` never runs: the
group takes the normal filtering path. -/
theorem claim_C10_sentinel (atm : ℚ) (w : Nat) (opts : List Instrument)
    (hne : opts ≠ []) (hatm : 0 < atm) :
    0 ≤ atmScan (sortedDedup (opts.map Instrument.strike)) atm ∧
    atmScan (sortedDedup (opts.map Instrument.strike)) atm ≠ -1 ∧
    (filter_atm_otm_group atm w opts).skipped = false := by
  obtain ⟨h0, -, -, -⟩ := atmScan_spec _ atm (strikes_ne_nil opts hne)
  refine ⟨h0, by omega, ?_⟩
  rw [filter_atm_otm_group_eq atm w opts (ne_of_gt hatm) (by omega)]

/-- C10 witness: a one-option group at ATM price 100. -/
theorem claim_C10_sentinel_witness :
    (([⟨"X", "A", "CE", 100, 0⟩] : List Instrument) ≠ [] ∧ (0 : ℚ) < 100) ∧
    (0 ≤ atmScan (sortedDedup
        (([⟨"X", "A", "CE", 100, 0⟩] : List Instrument).map Instrument.strike)) 100 ∧
     atmScan (sortedDedup
        (([⟨"X", "A", "CE", 100, 0⟩] : List Instrument).map Instrument.strike)) 100 ≠ -1 ∧
     (filter_atm_otm_group 100 0 ([⟨"X", "A", "CE", 100, 0⟩] : List Instrument)).skipped
       = false) :=
  ⟨⟨by simp, by norm_num⟩,
   claim_C10_sentinel 100 0 [⟨"X", "A", "CE", 100, 0⟩] (by simp) (by norm_num)⟩

/-! ## Claims C5, C6, C7: cycle override and the watcher loop -/

/-- C5 counterexample: a successful cycle whose scan is empty.  The
snapshot file is persisted with the (empty) current snapshot, but the
in-memory diff baseline `prev_snapshot` keeps its old value `["A"]` —
with no additions, `main` never executes `prev_snapshot = curr_snapshot`
— contradicting the claim that the baseline is replaced after every
successful cycle. -/
theorem claim_C5_counterexample :
    run_cycle (CycleOutcome.scanned []) ["A"] = (some [], []) ∧
    (mainStep ⟨["A"], ["A"], none⟩ (CycleOutcome.scanned [])).filePrev = [] ∧
    (mainStep ⟨["A"], ["A"], none⟩ (CycleOutcome.scanned [])).memPrev = ["A"] ∧
    (mainStep ⟨["A"], ["A"], none⟩ (CycleOutcome.scanned [])).memPrev ≠
      serialize_options_up [] := by
  refine ⟨rfl, rfl, rfl, ?_⟩
  decide

/-- C5 (amended): after every successful cycle the current snapshot is
persisted to the snapshot file regardless of whether it changed, and the
status record is rewritten with the cycle's added/removed counts; the
in-memory diff baseline, however, is replaced by the current snapshot only
when the cycle's `added` set is non-empty, and keeps its previous value
otherwise. -/
theorem claim_C5_amended (s : WatcherState) (records : List MomentumRecord) :
    (run_cycle (CycleOutcome.scanned records) s.filePrev).2
      = serialize_options_up records ∧
    (mainStep s (CycleOutcome.scanned records)).filePrev
      = serialize_options_up records ∧
    ((diff_lists s.memPrev (serialize_options_up records)).1 ≠ [] →
      (mainStep s (CycleOutcome.scanned records)).memPrev
        = serialize_options_up records) ∧
    ((diff_lists s.memPrev (serialize_options_up records)).1 = [] →
      (mainStep s (CycleOutcome.scanned records)).memPrev = s.memPrev) ∧
    (mainStep s (CycleOutcome.scanned records)).status
      = some ⟨(diff_lists s.memPrev (serialize_options_up records)).1.length,
              (diff_lists s.memPrev (serialize_options_up records)).2.length⟩ := by
  refine ⟨rfl, rfl, ?_, ?_, rfl⟩
  · intro h
    simp [mainStep, run_cycle, h]
  · intro h
    simp [mainStep, run_cycle, h]

/-- C6 counterexample: with the non-empty override `26MAR` active (it does
take precedence over the computed code `25OCT` at initialisation), a
catalog whose only future is a `25NOV` contract still triggers the
next-month fallback — `get_current_month_contracts` checks only
`fallback_next_month`, never the override — and the active cycle code
ends up `25NOV`, not the override. -/
theorem claim_C6_counterexample :
    init_current_month "26MAR" "25OCT" = "26MAR" ∧
    (get_current_month_contracts [⟨"FOO", "FOO25NOVFUT", "FUT", 0, 0⟩]
        "26MAR" "25NOV" true).current_month = "25NOV" ∧
    (get_current_month_contracts [⟨"FOO", "FOO25NOVFUT", "FUT", 0, 0⟩]
        "26MAR" "25NOV" true).current_month ≠ "26MAR" := by
  refine ⟨by decide, by decide, by decide⟩

/-- C6 (amended): a non-empty override takes precedence over the computed
current-month code at initialisation, and it remains the active cycle
code for any fetch in which the override month yields at least one future
contract or the next-month fallback flag is disabled; but when the
override month yields zero futures and the fallback flag is enabled, the
next-month fallback logic still runs and can replace the override. -/
theorem claim_C6_amended (override computed next_month : String)
    (all : List Instrument) (fb : Bool) (hov : override ≠ "") :
    init_current_month override computed = override ∧
    (futuresFor override all ≠ [] ∨ fb = false →
      get_current_month_contracts all override next_month fb =
        ⟨override, futuresFor override all, optionsFor override all⟩) := by
  refine ⟨by simp [init_current_month, hov], ?_⟩
  intro h
  unfold get_current_month_contracts
  rcases h with h | h
  · rw [if_neg]
    rintro ⟨h0, -⟩
    exact h (List.length_eq_zero.mp h0)
  · rw [if_neg]
    rintro ⟨-, hfb⟩
    rw [h] at hfb
    exact Bool.false_ne_true hfb

/-- C6 witness: the amended theorem at override 26MAR with one matching
future, fallback enabled. -/
theorem claim_C6_amended_witness :
    ("26MAR" : String) ≠ "" ∧
    (init_current_month "26MAR" "25OCT" = "26MAR" ∧
     (futuresFor "26MAR" [⟨"FOO", "FOO26MARFUT", "FUT", 0, 0⟩] ≠ [] ∨ true = false →
       get_current_month_contracts [⟨"FOO", "FOO26MARFUT", "FUT", 0, 0⟩]
           "26MAR" "25NOV" true =
         ⟨"26MAR", futuresFor "26MAR" [⟨"FOO", "FOO26MARFUT", "FUT", 0, 0⟩],
          optionsFor "26MAR" [⟨"FOO", "FOO26MARFUT", "FUT", 0, 0⟩]⟩)) :=
  ⟨by decide, claim_C6_amended "26MAR" "25OCT" "25NOV"
    [⟨"FOO", "FOO26MARFUT", "FUT", 0, 0⟩] true (by decide)⟩

/-- C7: a cycle that fails before the diff (authentication failure or
contract-fetch failure) is abandoned: `run_cycle` returns `None` without
writing the snapshot file, and the whole post-cycle block is skipped, so
the persisted snapshot, the in-memory baseline and the status record are
all exactly what they were before the cycle. -/
theorem claim_C7_cycle_failure (s : WatcherState) (o : CycleOutcome)
    (h : o = CycleOutcome.authFail ∨ o = CycleOutcome.fetchFail) :
    run_cycle o s.filePrev = (none, s.filePrev) ∧
    mainStep s o = s := by
  rcases h with rfl | rfl <;> exact ⟨rfl, rfl⟩

/-- C7 witness: an authentication failure at a concrete state. -/
theorem claim_C7_cycle_failure_witness :
    (CycleOutcome.authFail = CycleOutcome.authFail ∨
      CycleOutcome.authFail = CycleOutcome.fetchFail) ∧
    (run_cycle CycleOutcome.authFail
        (⟨["A"], ["B"], some ⟨1, 2⟩⟩ : WatcherState).filePrev
      = (none, (⟨["A"], ["B"], some ⟨1, 2⟩⟩ : WatcherState).filePrev) ∧
     mainStep ⟨["A"], ["B"], some ⟨1, 2⟩⟩ CycleOutcome.authFail
      = ⟨["A"], ["B"], some ⟨1, 2⟩⟩) :=
  ⟨Or.inl rfl, claim_C7_cycle_failure ⟨["A"], ["B"], some ⟨1, 2⟩⟩
    CycleOutcome.authFail (Or.inl rfl)⟩

end KiteTrader
